import Mathlib

/-!
Verification development for the infinite gradient carousel.

The carousel's numeric code (`script.js`) is shallowly embedded here.
Exact rational arithmetic (`ℚ`) models the pure position/layout/drag
computations; the momentum friction decay, which uses a real-valued
power `FRICTION ^ (dt * 60)`, is modelled over `ℝ` with `Real.rpow`.
JavaScript's `%` operator on numbers (truncated remainder, `NaN` on a
zero divisor) is modelled explicitly; `Option ℚ` marks the places where
the source could produce `NaN` (`none` = `NaN`).
-/

namespace GradientSlider

/-! ### Configuration constants (script.js lines 24-34) -/

def DRAG_SENS : ℚ := 1

def MAX_ROTATION : ℚ := 28

def MAX_DEPTH : ℚ := 140

def MIN_SCALE : ℚ := 92 / 100

def SCALE_RANGE : ℚ := 1 / 10

/-! ### JavaScript numeric primitives -/

/-- Truncation toward zero, as JavaScript's implicit `trunc` in the
semantics of the `%` operator. -/
def ratTrunc (q : ℚ) : ℤ := if 0 ≤ q then ⌊q⌋ else ⌈q⌉

/-- JavaScript `n % m` for a nonzero divisor: `n - m * trunc (n / m)`,
the remainder carrying the dividend's sign. -/
def jsRem (n m : ℚ) : ℚ := n - m * ratTrunc (n / m)

/-- JavaScript `n % m` including the zero-divisor case: `x % 0` is `NaN`,
modelled as `none`. -/
def jsRemO (n m : ℚ) : Option ℚ := if m = 0 then none else some (jsRem n m)

/-- `mod` from script.js line 91: `((n % m) + m) % m`, assuming a nonzero
divisor. -/
def mod (n m : ℚ) : ℚ := jsRem (jsRem n m + m) m

/-- `mod` from script.js line 91 including the zero-divisor case, where
JavaScript produces `NaN` (modelled as `none`). -/
def jsModO (n m : ℚ) : Option ℚ :=
  if m = 0 then none else some (mod n m)

/-- JavaScript `Math.round`: round half toward positive infinity. -/
def jsRound (q : ℚ) : ℤ := ⌊q + 1 / 2⌋

/-! ### Ring layout engine (script.js lines 243-264) -/

/-- Wrapped signed position of one item, from the body of the first loop
of `updateCarouselTransforms`: `pos = base - offset`, then
`if (pos < -half) pos += TRACK; if (pos > half) pos -= TRACK;`
with `half = TRACK / 2`, the two conditionals applied in sequence. -/
def wrapPos (base offset track : ℚ) : ℚ :=
  let pos := base - offset
  let pos := if pos < -(track / 2) then pos + track else pos
  if pos > track / 2 then pos - track else pos

/-- The closest-card scan of `updateCarouselTransforms`: running state is
`(closestIdx, closestDist)`, seeded with `(-1, Infinity)` (`none` models
`Infinity`); an item replaces the best on a strictly smaller distance. -/
def closestLoop : List ℚ → ℕ → ℤ → Option ℚ → ℤ
  | [], _, bi, _ => bi
  | p :: rest, i, bi, bd =>
    let d := |p|
    match bd with
    | none => closestLoop rest (i + 1) (i : ℤ) (some d)
    | some b =>
      if d < b then closestLoop rest (i + 1) (i : ℤ) (some d)
      else closestLoop rest (i + 1) bi (some b)

/-- Index of the item nearest to center, as computed by
`updateCarouselTransforms` over the list of wrapped positions. -/
def closestIdx (ps : List ℚ) : ℤ := closestLoop ps 0 (-1) none

/-- `computeTransformComponents` (script.js lines 213-223). -/
structure TransformComponents where
  norm : ℚ
  absNorm : ℚ
  invNorm : ℚ
  ry : ℚ
  tz : ℚ
  scale : ℚ
  deriving Repr, DecidableEq

/-- `computeTransformComponents(screenX)`: clamp the normalized position
to `[-1, 1]`, then derive rotation, depth and scale. `VW_HALF` is passed
explicitly. -/
def computeTransformComponents (screenX vwHalf : ℚ) : TransformComponents :=
  let norm := max (-1) (min 1 (screenX / vwHalf))
  let absNorm := |norm|
  let invNorm := 1 - absNorm
  { norm := norm
    absNorm := absNorm
    invNorm := invNorm
    ry := -norm * MAX_ROTATION
    tz := invNorm * MAX_DEPTH
    scale := MIN_SCALE + invNorm * SCALE_RANGE }

/-! ### Momentum controller: offset integration (script.js line 305) -/

/-- The `SCROLL_X` update of `tick`:
`SCROLL_X = mod(SCROLL_X + vX * dt, TRACK)`.  `none` models the `NaN`
that JavaScript's `%` produces when `TRACK = 0`. -/
def tickOffsetO (offset v dt track : ℚ) : Option ℚ :=
  jsModO (offset + v * dt) track

/-! ### Drag handlers (script.js lines 722-761) -/

/-- Module-level drag and scroll state used by the pointer handlers. -/
structure DragState where
  dragging : Bool
  offset : ℚ
  vX : ℚ
  lastX : ℚ
  lastT : ℚ
  lastDelta : ℚ
  deriving Repr, DecidableEq

/-- The `pointermove` handler (lines 741-752): no-op unless dragging;
otherwise `dx = clientX - lastX`, `dt = max(1, now - lastT) / 1000`,
`SCROLL_X = mod(SCROLL_X - dx * DRAG_SENS, TRACK)`, and the velocity
estimate `lastDelta = dx / dt` is recorded.  `vX` is untouched. -/
def pointermove (clientX now track : ℚ) (st : DragState) : Option DragState :=
  if st.dragging = false then some st
  else
    let dx := clientX - st.lastX
    let dt := max 1 (now - st.lastT) / 1000
    (jsModO (st.offset - dx * DRAG_SENS) track).map fun o =>
      { st with offset := o, lastDelta := dx / dt, lastX := clientX, lastT := now }

/-- The `pointerup` handler (lines 755-761): no-op unless dragging;
otherwise stop dragging and set `vX = -lastDelta * DRAG_SENS`. -/
def pointerup (st : DragState) : DragState :=
  if st.dragging = false then st
  else { st with dragging := false, vX := -st.lastDelta * DRAG_SENS }

/-! ### Momentum controller: velocity decay (script.js lines 300-314) -/

/-- The velocity update of `tick`: `vX *= Math.pow(FRICTION, dt * 60)`
with `FRICTION = 0.9`, then the epsilon snap
`if (Math.abs(vX) < 0.02) vX = 0`.  Real-valued `dt` makes the exponent
real, so the decay is `Real.rpow`. -/
noncomputable def tickVel (dt v : ℝ) : ℝ :=
  let decayed := v * (0.9 : ℝ) ^ (dt * 60)
  if |decayed| < 0.02 then 0 else decayed

/-- Velocity after `n` idle frames whose time deltas are `dts 0`,
`dts 1`, ... (seconds), starting from `v0`, with no impulses. -/
noncomputable def velAfter (v0 : ℝ) (dts : ℕ → ℝ) : ℕ → ℝ
  | 0 => v0
  | n + 1 => tickVel (dts n) (velAfter v0 dts n)

/-! ### Color extraction (script.js lines 340-551) -/

/-- `rgbToHsl(r, g, b)` (lines 347-379).  Inputs are 0-255 channel
values; output is `(hue in [0, 360), saturation, lightness)`.  The
JavaScript `switch (max)` compares `max === r`, then `max === g`, then
falls through, in that order. -/
def rgbToHsl (r g b : ℚ) : ℚ × ℚ × ℚ :=
  let r := r / 255
  let g := g / 255
  let b := b / 255
  let M := max r (max g b)
  let m := min r (min g b)
  let l := (M + m) / 2
  if M = m then (0, 0, l)
  else
    let d := M - m
    let s := if l > 1 / 2 then d / (2 - M - m) else d / (M + m)
    let h :=
      if M = r then (g - b) / d + (if g < b then 6 else 0)
      else if M = g then (b - r) / d + 2
      else (r - g) / d + 4
    (h / 6 * 360, s, l)

/-- The inner `hue2rgb(p, q, t)` helper of `hslToRgb` (lines 396-403). -/
def hue2rgb (p q t : ℚ) : ℚ :=
  let t := if t < 0 then t + 1 else t
  let t := if t > 1 then t - 1 else t
  if t < 1 / 6 then p + (q - p) * 6 * t
  else if t < 1 / 2 then q
  else if t < 2 / 3 then p + (q - p) * (2 / 3 - t) * 6
  else p

/-- `hslToRgb(h, s, l)` (lines 388-413): canonicalize the hue with
`((h % 360) + 360) % 360` (divisor 360 is nonzero, so the total `mod`
is faithful), then synthesize and round each channel. -/
def hslToRgb (h s l : ℚ) : ℤ × ℤ × ℤ :=
  let h := mod h 360 / 360
  if s = 0 then
    (jsRound (l * 255), jsRound (l * 255), jsRound (l * 255))
  else
    let q := if l < 1 / 2 then l * (1 + s) else l + s - l * s
    let p := 2 * l - q
    (jsRound (hue2rgb p q (h + 1 / 3) * 255),
     jsRound (hue2rgb p q h * 255),
     jsRound (hue2rgb p q (h - 1 / 3) * 255))

/-- `fallbackFromIndex(idx)` (lines 420-426): deterministic synthetic
pair, hue `(idx * 37) % 360`, saturation `0.65`, lightness `0.52` and
`0.72`. -/
def fallbackFromIndex (idx : ℕ) : (ℤ × ℤ × ℤ) × (ℤ × ℤ × ℤ) :=
  let h : ℚ := ((idx * 37) % 360 : ℕ)
  (hslToRgb h (65 / 100) (52 / 100), hslToRgb h (65 / 100) (72 / 100))

/-- One RGBA pixel of the decoded buffer handed to the histogram loop
(four consecutive entries of `ctx.getImageData(...).data`). -/
structure RGBA where
  r : ℚ
  g : ℚ
  b : ℚ
  a : ℚ
  deriving Repr, DecidableEq

/-- The four accumulator arrays `wSum`, `rSum`, `gSum`, `bSum` of
`extractColors`, indexed by bucket (`H_BINS * S_BINS = 180` buckets). -/
structure Hist where
  w : ℕ → ℚ
  r : ℕ → ℚ
  g : ℕ → ℚ
  b : ℕ → ℚ

/-- All-zero histogram (fresh `Float32Array`s). -/
def emptyHist : Hist := ⟨fun _ => 0, fun _ => 0, fun _ => 0, fun _ => 0⟩

/-- Number of histogram buckets: 36 hue bins times 5 saturation bins. -/
def SIZE : ℕ := 180

/-- One iteration of the pixel loop (lines 460-485): alpha gate, the
lightness/saturation filters, the weight
`a * s^2 * (1 - |l - 0.5| * 0.6)`, the clamped bin indices, and the
accumulation into the four arrays. -/
def accumPixel (hist : Hist) (px : RGBA) : Hist :=
  let a := px.a / 255
  if a < 5 / 100 then hist
  else
    let hsl := rgbToHsl px.r px.g px.b
    let h := hsl.1
    let s := hsl.2.1
    let l := hsl.2.2
    if l < 1 / 10 ∨ l > 92 / 100 ∨ s < 8 / 100 then hist
    else
      let wgt := a * (s * s) * (1 - |l - 1 / 2| * (6 / 10))
      let hi := max 0 (min 35 ⌊h / 360 * 36⌋)
      let si := max 0 (min 4 ⌊s * 5⌋)
      let bidx := (hi * 5 + si).toNat
      { w := fun j => if j = bidx then hist.w j + wgt else hist.w j
        r := fun j => if j = bidx then hist.r j + px.r * wgt else hist.r j
        g := fun j => if j = bidx then hist.g j + px.g * wgt else hist.g j
        b := fun j => if j = bidx then hist.b j + px.b * wgt else hist.b j }

/-- The whole pixel loop over the decoded buffer. -/
def buildHist (data : List RGBA) : Hist := data.foldl accumPixel emptyHist

/-- The primary scan (lines 488-495): `(pIdx, pW)` starts at `(-1, 0)`
and is replaced on a strictly greater weight. -/
def findPrimary (w : ℕ → ℚ) : ℤ × ℚ :=
  (List.range SIZE).foldl
    (fun acc i => if w i > acc.2 then ((i : ℤ), w i) else acc) (-1, 0)

/-- Bucket hue of bucket `i`: `Math.floor(i / S_BINS) * (360 / H_BINS)`. -/
def bucketHue (i : ℕ) : ℚ := (i / 5 : ℕ) * 10

/-- Shortest-arc hue distance used by the secondary scan. -/
def hueDist (h pHue : ℚ) : ℚ := min |h - pHue| (360 - |h - pHue|)

/-- The secondary scan (lines 501-516): skip zero-weight buckets, keep
the greatest-weight bucket whose bucket hue is at least 25 degrees from
the primary's bucket hue. -/
def findSecondary (w : ℕ → ℚ) (pHue : ℚ) : ℤ × ℚ :=
  (List.range SIZE).foldl
    (fun acc i =>
      if w i ≤ 0 then acc
      else if 25 ≤ hueDist (bucketHue i) pHue ∧ w i > acc.2 then ((i : ℤ), w i)
      else acc)
    (-1, 0)

/-- `avgRGB(idx)` (lines 519-526): weight-weighted average of the
bucket's accumulated RGB, rounded; a zero weight is replaced by `1e-6`
(JavaScript `||`). -/
def avgRGB (hist : Hist) (i : ℕ) : ℤ × ℤ × ℤ :=
  let w := if hist.w i = 0 then 1 / 1000000 else hist.w i
  (jsRound (hist.r i / w), jsRound (hist.g i / w), jsRound (hist.b i / w))

/-- `extractColors` from the decoded pixel buffer on (lines 450-547):
build the histogram, pick the primary bucket, pick the secondary
candidate, and synthesize the two output colors.  The canvas downscale
that produces the buffer is outside the model; the buffer itself is the
input.  The body never fails, matching the enclosing `try`/`catch`. -/
def extractColors (data : List RGBA) (idx : ℕ) : (ℤ × ℤ × ℤ) × (ℤ × ℤ × ℤ) :=
  let hist := buildHist data
  let p := findPrimary hist.w
  if p.1 < 0 ∨ p.2 ≤ 0 then fallbackFromIndex idx
  else
    let pHue := bucketHue p.1.toNat
    let sec := findSecondary hist.w pHue
    let prgb := avgRGB hist p.1.toNat
    let hsl1 := rgbToHsl prgb.1 prgb.2.1 prgb.2.2
    let h1 := hsl1.1
    let s1 := max (45 / 100) (min 1 (hsl1.2.1 * (115 / 100)))
    let c1 := hslToRgb h1 s1 (1 / 2)
    let c2 :=
      if 0 ≤ sec.1 ∧ sec.2 ≥ p.2 * (6 / 10) then
        let srgb := avgRGB hist sec.1.toNat
        let hsl2 := rgbToHsl srgb.1 srgb.2.1 srgb.2.2
        hslToRgb hsl2.1 (max (45 / 100) (min 1 (hsl2.2.1 * (105 / 100)))) (72 / 100)
      else hslToRgb h1 s1 (72 / 100)
    (c1, c2)

/-! ### Theorems -/

/-- C10: for every screen position and nonzero viewport half-width, the
derived transform components are bounded: rotation in
`[-MAX_ROTATION, MAX_ROTATION]`, depth in `[0, MAX_DEPTH]`, scale in
`[MIN_SCALE, MIN_SCALE + SCALE_RANGE]`, because the normalized position
is clamped to `[-1, 1]`. -/
theorem transform_components_bounded (screenX vwHalf : ℚ) (_h : vwHalf ≠ 0) :
    (-MAX_ROTATION ≤ (computeTransformComponents screenX vwHalf).ry ∧
      (computeTransformComponents screenX vwHalf).ry ≤ MAX_ROTATION) ∧
    (0 ≤ (computeTransformComponents screenX vwHalf).tz ∧
      (computeTransformComponents screenX vwHalf).tz ≤ MAX_DEPTH) ∧
    (MIN_SCALE ≤ (computeTransformComponents screenX vwHalf).scale ∧
      (computeTransformComponents screenX vwHalf).scale ≤ MIN_SCALE + SCALE_RANGE) := by
  simp only [computeTransformComponents, MAX_ROTATION, MAX_DEPTH, MIN_SCALE, SCALE_RANGE]
  have h1 : -1 ≤ max (-1 : ℚ) (min 1 (screenX / vwHalf)) := le_max_left _ _
  have h2 : max (-1 : ℚ) (min 1 (screenX / vwHalf)) ≤ 1 :=
    max_le (by norm_num) (min_le_left _ _)
  have h3 : |max (-1 : ℚ) (min 1 (screenX / vwHalf))| ≤ 1 := abs_le.mpr ⟨h1, h2⟩
  have h4 : 0 ≤ |max (-1 : ℚ) (min 1 (screenX / vwHalf))| := abs_nonneg _
  refine ⟨⟨by linarith, by linarith⟩, ⟨by linarith, by linarith⟩, by linarith, by linarith⟩

/-- C10 witness: the bounds at `screenX = 100`, `VW_HALF = 500`. -/
theorem transform_components_bounded_witness :
    (-MAX_ROTATION ≤ (computeTransformComponents 100 500).ry ∧
      (computeTransformComponents 100 500).ry ≤ MAX_ROTATION) ∧
    (0 ≤ (computeTransformComponents 100 500).tz ∧
      (computeTransformComponents 100 500).tz ≤ MAX_DEPTH) ∧
    (MIN_SCALE ≤ (computeTransformComponents 100 500).scale ∧
      (computeTransformComponents 100 500).scale ≤ MIN_SCALE + SCALE_RANGE) :=
  transform_components_bounded 100 500 (by norm_num)

/-- C1 counterexample: with `track = 10`, `offset = 5`, `base = 0` the
wrapped position is exactly `-track/2 = -5`, which is not in the claimed
half-open interval `(-track/2, track/2]`. -/
theorem wrap_boundary_cex :
    wrapPos 0 5 10 = -5 ∧ ¬(-(10 / 2 : ℚ) < wrapPos 0 5 10) := by
  have h : wrapPos 0 5 10 = -5 := by norm_num [wrapPos]
  refine ⟨h, ?_⟩
  rw [h]
  norm_num

/-- C1 (amended): for every `track > 0`, every canonical
`offset ∈ [0, track)` (the range the engine maintains via `mod`), and
every base offset in `[0, track)`, the wrapped signed position lies in
the closed interval `[-track/2, track/2]`. -/
theorem wrapPos_in_half_track (base offset track : ℚ)
    (_htrack : 0 < track) (ho0 : 0 ≤ offset) (ho1 : offset < track)
    (hb0 : 0 ≤ base) (hb1 : base < track) :
    -(track / 2) ≤ wrapPos base offset track ∧ wrapPos base offset track ≤ track / 2 := by
  simp only [wrapPos]
  split_ifs with hlo hhi hhi <;> constructor <;> linarith

/-- C1 witness: the amended bound at `base = 3`, `offset = 7`,
`track = 10`. -/
theorem wrapPos_in_half_track_witness :
    -(10 / 2 : ℚ) ≤ wrapPos 3 7 10 ∧ wrapPos 3 7 10 ≤ 10 / 2 :=
  wrapPos_in_half_track 3 7 10 (by norm_num) (by norm_num) (by norm_num)
    (by norm_num) (by norm_num)

/-- C5: with `track = 0` the layout loop's wrap arithmetic stays
well-defined (it reduces to `base - offset`, with no division), but the
frame integrator `tick` computes `mod(SCROLL_X + vX * dt, 0)`, whose
JavaScript value is `NaN` (`none` in the model): the scroll offset is
corrupted instead of the position math being skipped. -/
theorem track_zero_tick_nan :
    (∀ base offset : ℚ, wrapPos base offset 0 = base - offset) ∧
    tickOffsetO 0 1 1 0 = none := by
  constructor
  · intro base offset
    simp only [wrapPos]
    norm_num
  · simp [tickOffsetO, jsModO]

/-- C9: the palette extraction from a decoded pixel buffer is a pure
function of the buffer and the index: equal buffers give bit-identical
primary and secondary colors. -/
theorem extract_deterministic (d1 d2 : List RGBA) (idx : ℕ) (h : d1 = d2) :
    extractColors d1 idx = extractColors d2 idx := by rw [h]

/-- C9 witness: determinism at a concrete one-pixel buffer. -/
theorem extract_deterministic_witness :
    extractColors [⟨100, 0, 0, 255⟩] 0 = extractColors [⟨100, 0, 0, 255⟩] 0 :=
  extract_deterministic [⟨100, 0, 0, 255⟩] [⟨100, 0, 0, 255⟩] 0 rfl

/-- C4: while dragging with a positive track, a pointer-move with
horizontal position `clientX` immediately sets the offset to
`mod(offset - dx * DRAG_SENS, track)` with `dx = clientX - lastX`,
records the velocity estimate `dx / dt`, and leaves `vX` unchanged;
`pointerup` then sets `vX = -lastDelta * DRAG_SENS` and stops the
drag. -/
theorem drag_move_release_spec (st : DragState) (clientX now track : ℚ)
    (hd : st.dragging = true) (ht : 0 < track) :
    (∃ st', pointermove clientX now track st = some st' ∧
        st'.offset = mod (st.offset - (clientX - st.lastX) * DRAG_SENS) track ∧
        st'.vX = st.vX ∧
        st'.lastDelta = (clientX - st.lastX) / (max 1 (now - st.lastT) / 1000)) ∧
    (pointerup st).vX = -st.lastDelta * DRAG_SENS ∧
    (pointerup st).dragging = false := by
  have hne : track ≠ 0 := ne_of_gt ht
  refine ⟨⟨{ st with
      offset := mod (st.offset - (clientX - st.lastX) * DRAG_SENS) track,
      lastDelta := (clientX - st.lastX) / (max 1 (now - st.lastT) / 1000),
      lastX := clientX, lastT := now }, ?_, rfl, rfl, rfl⟩, ?_, ?_⟩
  · simp [pointermove, hd, jsModO, hne]
  · simp [pointerup, hd]
  · simp [pointerup, hd]

/-- C4 witness: a concrete drag-move of `dx = -100` pixels (drag 100px
to the left) at `offset = 50`, `track = 3280`, shifting the offset to
`mod(50 + 100, 3280) = 150` with the velocity untouched, followed by the
release. -/
theorem drag_move_release_witness :
    ((∃ st', pointermove 100 16 3280 (⟨true, 50, 7, 200, 0, 3⟩ : DragState) = some st' ∧
        st'.offset = mod (50 - (100 - 200) * DRAG_SENS) 3280 ∧
        st'.vX = 7 ∧
        st'.lastDelta = (100 - 200) / (max 1 (16 - 0) / 1000)) ∧
      (pointerup (⟨true, 50, 7, 200, 0, 3⟩ : DragState)).vX = -3 * DRAG_SENS ∧
      (pointerup (⟨true, 50, 7, 200, 0, 3⟩ : DragState)).dragging = false) ∧
    mod (50 - (100 - 200) * DRAG_SENS) 3280 = 150 := by
  refine ⟨drag_move_release_spec ⟨true, 50, 7, 200, 0, 3⟩ 100 16 3280 rfl (by norm_num), ?_⟩
  norm_num [mod, jsRem, ratTrunc, DRAG_SENS]

/-- Membership of an in-bounds `getD` access. -/
lemma getD_mem_of_lt {l : List ℚ} {m : ℕ} (h : m < l.length) : l.getD m 0 ∈ l := by
  rw [List.getD_eq_getElem l 0 h]
  exact List.getElem_mem h

/-- Invariant of the closest-card scan once a finite best distance `b`
for best index `bi` has been recorded: the scan either keeps `bi`
because no later distance strictly beats `b`, or returns the position of
the first strict improvement to the minimum of the remaining
distances. -/
lemma closestLoop_some_spec (l : List ℚ) :
    ∀ (i : ℕ) (bi : ℤ) (b : ℚ),
      (closestLoop l i bi (some b) = bi ∧ ∀ x ∈ l, b ≤ |x|) ∨
      (∃ k, k < l.length ∧ closestLoop l i bi (some b) = ((i + k : ℕ) : ℤ) ∧
        |l.getD k 0| < b ∧ (∀ m, m < l.length → |l.getD k 0| ≤ |l.getD m 0|) ∧
        (∀ m, m < k → |l.getD k 0| < |l.getD m 0|)) := by
  induction l with
  | nil =>
    intro i bi b
    left
    exact ⟨rfl, by simp⟩
  | cons p rest ih =>
    intro i bi b
    simp only [closestLoop]
    by_cases hc : |p| < b
    · rw [if_pos hc]
      rcases ih (i + 1) (i : ℤ) |p| with ⟨heq, hall⟩ | ⟨k, hk, heq, hlt, hmin, hfirst⟩
      · right
        refine ⟨0, by simp, by simpa using heq, by simpa using hc, ?_, ?_⟩
        · intro m hm
          cases m with
          | zero => simp
          | succ m =>
            simp only [List.getD_cons_zero, List.getD_cons_succ]
            exact hall _ (getD_mem_of_lt (by simpa using hm))
        · intro m hm
          exact absurd hm (Nat.not_lt_zero m)
      · right
        refine ⟨k + 1, by simpa using hk, ?_, ?_, ?_, ?_⟩
        · rw [heq]
          congr 1
          omega
        · simp only [List.getD_cons_succ]
          exact lt_trans hlt hc
        · intro m hm
          cases m with
          | zero =>
            simp only [List.getD_cons_succ, List.getD_cons_zero]
            exact le_of_lt hlt
          | succ m =>
            simp only [List.getD_cons_succ]
            exact hmin m (by simpa using hm)
        · intro m hm
          cases m with
          | zero =>
            simp only [List.getD_cons_succ, List.getD_cons_zero]
            exact hlt
          | succ m =>
            simp only [List.getD_cons_succ]
            exact hfirst m (by omega)
    · rw [if_neg hc]
      rcases ih (i + 1) bi b with ⟨heq, hall⟩ | ⟨k, hk, heq, hlt, hmin, hfirst⟩
      · left
        refine ⟨heq, ?_⟩
        intro x hx
        rcases List.mem_cons.mp hx with hx | hx
        · subst hx
          exact le_of_not_lt hc
        · exact hall x hx
      · right
        refine ⟨k + 1, by simpa using hk, ?_, ?_, ?_, ?_⟩
        · rw [heq]
          congr 1
          omega
        · simpa only [List.getD_cons_succ] using hlt
        · intro m hm
          cases m with
          | zero =>
            simp only [List.getD_cons_succ, List.getD_cons_zero]
            exact le_of_lt (lt_of_lt_of_le hlt (le_of_not_lt hc))
          | succ m =>
            simp only [List.getD_cons_succ]
            exact hmin m (by simpa using hm)
        · intro m hm
          cases m with
          | zero =>
            simp only [List.getD_cons_succ, List.getD_cons_zero]
            exact lt_of_lt_of_le hlt (le_of_not_lt hc)
          | succ m =>
            simp only [List.getD_cons_succ]
            exact hfirst m (by omega)

/-- The per-frame list of wrapped positions (the `positions` array). -/
def wrappedPositions (items : List ℚ) (offset track : ℚ) : List ℚ :=
  items.map fun base => wrapPos base offset track

/-- C2: for every nonempty item configuration and every offset, the
nearest index reported by the layout pass is a valid index of minimum
absolute wrapped position, and on any tie in absolute position it is the
lowest tied index (the first encountered by the scan). -/
theorem closest_lowest_index_on_tie (items : List ℚ) (offset track : ℚ)
    (h : items ≠ []) :
    ∃ j : ℕ, j < (wrappedPositions items offset track).length ∧
      closestIdx (wrappedPositions items offset track) = (j : ℤ) ∧
      (∀ i, i < (wrappedPositions items offset track).length →
        |(wrappedPositions items offset track).getD j 0| ≤
          |(wrappedPositions items offset track).getD i 0|) ∧
      (∀ i, i < (wrappedPositions items offset track).length →
        |(wrappedPositions items offset track).getD i 0| =
          |(wrappedPositions items offset track).getD j 0| → j ≤ i) := by
  obtain ⟨p, rest, hps⟩ : ∃ p rest, wrappedPositions items offset track = p :: rest := by
    cases hw : wrappedPositions items offset track with
    | nil =>
      exfalso
      apply h
      have hlen := congrArg List.length hw
      simp only [wrappedPositions, List.length_map, List.length_nil] at hlen
      exact List.length_eq_zero.mp hlen
    | cons p rest => exact ⟨p, rest, rfl⟩
  rw [hps]
  have hstart : closestIdx (p :: rest) = closestLoop rest 1 0 (some |p|) := rfl
  rcases closestLoop_some_spec rest 1 0 |p| with ⟨heq, hall⟩ | ⟨k, hk, heq, hlt, hmin, hfirst⟩
  · refine ⟨0, by simp, by rw [hstart, heq]; rfl, ?_, ?_⟩
    · intro i hi
      cases i with
      | zero => simp
      | succ i =>
        simp only [List.getD_cons_zero, List.getD_cons_succ]
        exact hall _ (getD_mem_of_lt (by simpa using hi))
    · intro i _ _
      exact Nat.zero_le i
  · refine ⟨k + 1, by simpa using hk, ?_, ?_, ?_⟩
    · rw [hstart, heq]
      congr 1
      omega
    · intro i hi
      cases i with
      | zero =>
        simp only [List.getD_cons_succ, List.getD_cons_zero]
        exact le_of_lt hlt
      | succ i =>
        simp only [List.getD_cons_succ]
        exact hmin i (by simpa using hi)
    · intro i hi hieq
      cases i with
      | zero =>
        exfalso
        simp only [List.getD_cons_zero, List.getD_cons_succ] at hieq
        rw [hieq] at hlt
        exact lt_irrefl _ hlt
      | succ i =>
        simp only [List.getD_cons_succ] at hieq
        by_contra hcon
        have hik : i < k := by omega
        have := hfirst i hik
        rw [hieq] at this
        exact lt_irrefl _ this

/-- C2 witness: items with pitch 5 on a track of length 10 at
`offset = 2.5` produce the tied wrapped positions `[-2.5, 2.5]`; the
scan picks index 0, the lowest tied index. -/
theorem closest_lowest_index_on_tie_witness :
    ∃ j : ℕ, j < (wrappedPositions [0, 5] (5 / 2) 10).length ∧
      closestIdx (wrappedPositions [0, 5] (5 / 2) 10) = (j : ℤ) ∧
      (∀ i, i < (wrappedPositions [0, 5] (5 / 2) 10).length →
        |(wrappedPositions [0, 5] (5 / 2) 10).getD j 0| ≤
          |(wrappedPositions [0, 5] (5 / 2) 10).getD i 0|) ∧
      (∀ i, i < (wrappedPositions [0, 5] (5 / 2) 10).length →
        |(wrappedPositions [0, 5] (5 / 2) 10).getD i 0| =
          |(wrappedPositions [0, 5] (5 / 2) 10).getD j 0| → j ≤ i) :=
  closest_lowest_index_on_tie [0, 5] (5 / 2) 10 (by simp)

/-- Invariant of the primary scan: starting from accumulator `acc`, the
fold either keeps `acc` because nothing strictly exceeds its weight, or
returns some visited index realizing the running maximum. -/
lemma primaryFold_spec (w : ℕ → ℚ) (l : List ℕ) :
    ∀ acc : ℤ × ℚ,
      (l.foldl (fun acc i => if w i > acc.2 then ((i : ℤ), w i) else acc) acc = acc ∧
        ∀ i ∈ l, w i ≤ acc.2) ∨
      (∃ i ∈ l, l.foldl (fun acc i => if w i > acc.2 then ((i : ℤ), w i) else acc) acc =
          ((i : ℤ), w i) ∧
        acc.2 < w i ∧ ∀ j ∈ l, w j ≤ w i) := by
  induction l with
  | nil =>
    intro acc
    left
    exact ⟨rfl, by simp⟩
  | cons p rest ih =>
    intro acc
    simp only [List.foldl_cons]
    by_cases hc : w p > acc.2
    · rw [if_pos hc]
      rcases ih ((p : ℤ), w p) with ⟨heq, hall⟩ | ⟨i, hi, heq, hgt, hall⟩
      · right
        refine ⟨p, List.mem_cons_self p rest, heq, hc, ?_⟩
        intro j hj
        rcases List.mem_cons.mp hj with hj | hj
        · subst hj
          exact le_refl _
        · exact hall j hj
      · right
        refine ⟨i, List.mem_cons_of_mem p hi, heq, lt_trans hc hgt, ?_⟩
        intro j hj
        rcases List.mem_cons.mp hj with hj | hj
        · subst hj
          exact le_of_lt hgt
        · exact hall j hj
    · rw [if_neg hc]
      rcases ih acc with ⟨heq, hall⟩ | ⟨i, hi, heq, hgt, hall⟩
      · left
        refine ⟨heq, ?_⟩
        intro j hj
        rcases List.mem_cons.mp hj with hj | hj
        · subst hj
          exact le_of_not_lt hc
        · exact hall j hj
      · right
        refine ⟨i, List.mem_cons_of_mem p hi, heq, hgt, ?_⟩
        intro j hj
        rcases List.mem_cons.mp hj with hj | hj
        · subst hj
          exact le_trans (le_of_not_lt hc) (le_of_lt hgt)
        · exact hall j hj

/-- When some bucket has positive weight, the primary scan lands on a
maximum-weight bucket with positive weight. -/
lemma findPrimary_spec (w : ℕ → ℚ) (h : ∃ j, j < SIZE ∧ 0 < w j) :
    ∃ p : ℕ, p < SIZE ∧ findPrimary w = ((p : ℤ), w p) ∧ 0 < w p ∧
      ∀ j, j < SIZE → w j ≤ w p := by
  obtain ⟨j0, hj0, hj0pos⟩ := h
  rcases primaryFold_spec w (List.range SIZE) ((-1 : ℤ), 0) with
    ⟨_, hall⟩ | ⟨i, hi, heq, hgt, hall⟩
  · exact absurd hj0pos (not_lt.mpr (hall j0 (List.mem_range.mpr hj0)))
  · exact ⟨i, List.mem_range.mp hi, heq, hgt, fun j hj => hall j (List.mem_range.mpr hj)⟩

/-- When one bucket strictly dominates every other bucket, the primary
scan returns exactly that bucket. -/
lemma findPrimary_eq_of_max (w : ℕ → ℚ) (p : ℕ) (hp : p < SIZE) (hpos : 0 < w p)
    (hmax : ∀ j, j < SIZE → j ≠ p → w j < w p) :
    findPrimary w = ((p : ℤ), w p) := by
  obtain ⟨q, hq, heq, _, hall⟩ := findPrimary_spec w ⟨p, hp, hpos⟩
  by_cases hqp : q = p
  · subst hqp
    exact heq
  · exact absurd (lt_of_le_of_lt (hall p hp) (hmax q hq hqp)) (lt_irrefl _)

/-- A bucket qualifies as a secondary candidate when its weight is
positive and its bucket hue is at least 25 degrees (shortest arc) from
the primary's bucket hue. -/
def isCandidate (w : ℕ → ℚ) (pHue : ℚ) (i : ℕ) : Prop :=
  0 < w i ∧ 25 ≤ hueDist (bucketHue i) pHue

instance (w : ℕ → ℚ) (pHue : ℚ) (i : ℕ) : Decidable (isCandidate w pHue i) := by
  unfold isCandidate
  infer_instance

/-- Invariant of the secondary scan: candidates are exactly the
positive-weight buckets at hue distance at least 25, and the fold tracks
their running strict maximum. -/
lemma secondaryFold_spec (w : ℕ → ℚ) (pHue : ℚ) (l : List ℕ) :
    ∀ acc : ℤ × ℚ,
      (l.foldl (fun acc i =>
          if w i ≤ 0 then acc
          else if 25 ≤ hueDist (bucketHue i) pHue ∧ w i > acc.2 then ((i : ℤ), w i)
          else acc) acc = acc ∧
        ∀ i ∈ l, isCandidate w pHue i → w i ≤ acc.2) ∨
      (∃ i ∈ l, l.foldl (fun acc i =>
          if w i ≤ 0 then acc
          else if 25 ≤ hueDist (bucketHue i) pHue ∧ w i > acc.2 then ((i : ℤ), w i)
          else acc) acc = ((i : ℤ), w i) ∧
        acc.2 < w i ∧ isCandidate w pHue i ∧
        ∀ j ∈ l, isCandidate w pHue j → w j ≤ w i) := by
  induction l with
  | nil =>
    intro acc
    left
    exact ⟨rfl, by simp⟩
  | cons p rest ih =>
    intro acc
    simp only [List.foldl_cons]
    by_cases h0 : w p ≤ 0
    · rw [if_pos h0]
      rcases ih acc with ⟨heq, hall⟩ | ⟨i, hi, heq, hgt, hcand, hall⟩
      · left
        refine ⟨heq, ?_⟩
        intro j hj hcj
        rcases List.mem_cons.mp hj with hj | hj
        · subst hj
          exact absurd hcj.1 (not_lt.mpr h0)
        · exact hall j hj hcj
      · right
        refine ⟨i, List.mem_cons_of_mem p hi, heq, hgt, hcand, ?_⟩
        intro j hj hcj
        rcases List.mem_cons.mp hj with hj | hj
        · subst hj
          exact absurd hcj.1 (not_lt.mpr h0)
        · exact hall j hj hcj
    · rw [if_neg h0]
      by_cases h1 : 25 ≤ hueDist (bucketHue p) pHue ∧ w p > acc.2
      · rw [if_pos h1]
        rcases ih ((p : ℤ), w p) with ⟨heq, hall⟩ | ⟨i, hi, heq, hgt, hcand, hall⟩
        · right
          refine ⟨p, List.mem_cons_self p rest, heq, h1.2, ⟨not_le.mp h0, h1.1⟩, ?_⟩
          intro j hj hcj
          rcases List.mem_cons.mp hj with hj | hj
          · subst hj
            exact le_refl _
          · exact hall j hj hcj
        · right
          refine ⟨i, List.mem_cons_of_mem p hi, heq, lt_trans h1.2 hgt, hcand, ?_⟩
          intro j hj hcj
          rcases List.mem_cons.mp hj with hj | hj
          · subst hj
            exact le_of_lt hgt
          · exact hall j hj hcj
      · rw [if_neg h1]
        rcases ih acc with ⟨heq, hall⟩ | ⟨i, hi, heq, hgt, hcand, hall⟩
        · left
          refine ⟨heq, ?_⟩
          intro j hj hcj
          rcases List.mem_cons.mp hj with hj | hj
          · subst hj
            exact le_of_not_lt fun hgt2 => h1 ⟨hcj.2, hgt2⟩
          · exact hall j hj hcj
        · right
          refine ⟨i, List.mem_cons_of_mem p hi, heq, hgt, hcand, ?_⟩
          intro j hj hcj
          rcases List.mem_cons.mp hj with hj | hj
          · subst hj
            exact le_trans (le_of_not_lt fun hgt2 => h1 ⟨hcj.2, hgt2⟩) (le_of_lt hgt)
          · exact hall j hj hcj

/-- The secondary scan either reports no candidate (`(-1, 0)`, every
candidate has nonpositive weight) or a maximum-weight candidate. -/
lemma findSecondary_cases (w : ℕ → ℚ) (pHue : ℚ) :
    (findSecondary w pHue = ((-1 : ℤ), 0) ∧
      ∀ i, i < SIZE → isCandidate w pHue i → w i ≤ 0) ∨
    (∃ s : ℕ, s < SIZE ∧ findSecondary w pHue = ((s : ℤ), w s) ∧ 0 < w s ∧
      isCandidate w pHue s ∧ ∀ j, j < SIZE → isCandidate w pHue j → w j ≤ w s) := by
  rcases secondaryFold_spec w pHue (List.range SIZE) ((-1 : ℤ), 0) with
    ⟨heq, hall⟩ | ⟨i, hi, heq, hgt, hcand, hall⟩
  · left
    exact ⟨heq, fun i hi hci => hall i (List.mem_range.mpr hi) hci⟩
  · right
    exact ⟨i, List.mem_range.mp hi, heq, hgt, hcand,
      fun j hj hcj => hall j (List.mem_range.mpr hj) hcj⟩

/-- When no bucket qualifies as a candidate, the secondary scan keeps
its initial `(-1, 0)` accumulator. -/
lemma findSecondary_eq_neg (w : ℕ → ℚ) (pHue : ℚ)
    (h : ∀ i, i < SIZE → ¬isCandidate w pHue i) :
    findSecondary w pHue = ((-1 : ℤ), 0) := by
  rcases findSecondary_cases w pHue with ⟨heq, _⟩ | ⟨s, hs, _, _, hcand, _⟩
  · exact heq
  · exact absurd hcand (h s hs)

/-- When one candidate strictly dominates every other candidate, the
secondary scan returns exactly that candidate. -/
lemma findSecondary_eq_of_max (w : ℕ → ℚ) (pHue : ℚ) (s : ℕ) (hs : s < SIZE)
    (hc : isCandidate w pHue s)
    (hmax : ∀ j, j < SIZE → j ≠ s → isCandidate w pHue j → w j < w s) :
    findSecondary w pHue = ((s : ℤ), w s) := by
  rcases findSecondary_cases w pHue with ⟨_, hall⟩ | ⟨t, ht, heq, _, hcandt, hallt⟩
  · exact absurd hc.1 (not_lt.mpr (hall s hs hc))
  · by_cases hts : t = s
    · subst hts
      exact heq
    · exact absurd (lt_of_le_of_lt (hallt s hs hc) (hmax t ht hts hcandt)) (lt_irrefl _)

/-- Unfolding of `extractColors` on the non-fallback path, with the
primary bucket made explicit. -/
lemma extractColors_eq (data : List RGBA) (idx : ℕ) (p : ℕ)
    (hp : findPrimary (buildHist data).w = ((p : ℤ), (buildHist data).w p))
    (hpos : 0 < (buildHist data).w p) :
    extractColors data idx =
      (let hist := buildHist data
       let sec := findSecondary hist.w (bucketHue p)
       let prgb := avgRGB hist p
       let hsl1 := rgbToHsl prgb.1 prgb.2.1 prgb.2.2
       let s1 := max (45 / 100) (min 1 (hsl1.2.1 * (115 / 100)))
       (hslToRgb hsl1.1 s1 (1 / 2),
        if 0 ≤ sec.1 ∧ sec.2 ≥ hist.w p * (6 / 10) then
          let srgb := avgRGB hist sec.1.toNat
          let hsl2 := rgbToHsl srgb.1 srgb.2.1 srgb.2.2
          hslToRgb hsl2.1 (max (45 / 100) (min 1 (hsl2.2.1 * (105 / 100)))) (72 / 100)
        else hslToRgb hsl1.1 s1 (72 / 100))) := by
  have hng : ¬(((p : ℤ), (buildHist data).w p).1 < 0 ∨
      ((p : ℤ), (buildHist data).w p).2 ≤ 0) := by
    push_neg
    exact ⟨Int.natCast_nonneg p, hpos⟩
  simp only [extractColors, hp, hng, if_false, Int.toNat_natCast]

/-! ### Concrete evaluations used by witnesses and counterexamples -/

/-- HSL of the dark red pixel `(100, 0, 0)`. -/
lemma rgbToHsl_red : rgbToHsl 100 0 0 = (0, 1, 10 / 51) := by
  norm_num [rgbToHsl, max_def, min_def]

/-- HSL of the blue pixel `(0, 0, 200)`. -/
lemma rgbToHsl_blue : rgbToHsl 0 0 200 = (240, 1, 20 / 51) := by
  norm_num [rgbToHsl, max_def, min_def]

/-- Histogram weights of the one-pixel dark red buffer: all weight in
bucket 4 (hue bin 0, saturation bin 4). -/
lemma redHist_w :
    ∀ j, (buildHist [⟨100, 0, 0, 255⟩]).w j = if j = 4 then 139 / 170 else 0 := by
  intro j
  show (accumPixel emptyHist ⟨100, 0, 0, 255⟩).w j = _
  simp only [accumPixel, rgbToHsl_red, emptyHist]
  norm_num [abs_of_nonpos, max_def, min_def, show Int.toNat 4 = 4 from rfl]

/-- Accumulated red sum of the one-pixel dark red buffer. -/
lemma redHist_r :
    ∀ j, (buildHist [⟨100, 0, 0, 255⟩]).r j =
      if j = 4 then 100 * (139 / 170) else 0 := by
  intro j
  show (accumPixel emptyHist ⟨100, 0, 0, 255⟩).r j = _
  simp only [accumPixel, rgbToHsl_red, emptyHist]
  norm_num [abs_of_nonpos, max_def, min_def, show Int.toNat 4 = 4 from rfl]

/-- Accumulated green sum of the one-pixel dark red buffer. -/
lemma redHist_g : ∀ j, (buildHist [⟨100, 0, 0, 255⟩]).g j = 0 := by
  intro j
  show (accumPixel emptyHist ⟨100, 0, 0, 255⟩).g j = _
  simp only [accumPixel, rgbToHsl_red, emptyHist]
  norm_num [abs_of_nonpos, max_def, min_def, show Int.toNat 4 = 4 from rfl]

/-- Accumulated blue sum of the one-pixel dark red buffer. -/
lemma redHist_b : ∀ j, (buildHist [⟨100, 0, 0, 255⟩]).b j = 0 := by
  intro j
  show (accumPixel emptyHist ⟨100, 0, 0, 255⟩).b j = _
  simp only [accumPixel, rgbToHsl_red, emptyHist]
  norm_num [abs_of_nonpos, max_def, min_def, show Int.toNat 4 = 4 from rfl]

/-- Representative RGB of bucket 4 of the dark red buffer: the weighted
average recovers the pixel itself. -/
lemma avgRGB_red : avgRGB (buildHist [⟨100, 0, 0, 255⟩]) 4 = (100, 0, 0) := by
  simp only [avgRGB, redHist_w, redHist_r, redHist_g, redHist_b]
  norm_num [jsRound]

/-- Output color for hue 0, full saturation, lightness 1/2. -/
lemma hslToRgb_red_half : hslToRgb 0 1 (1 / 2) = (255, 0, 0) := by
  norm_num [hslToRgb, hue2rgb, mod, jsRem, ratTrunc, jsRound, max_def, min_def]

/-- Output color for hue 0, full saturation, lightness 0.72. -/
lemma hslToRgb_red_light : hslToRgb 0 1 (72 / 100) = (255, 112, 112) := by
  norm_num [hslToRgb, hue2rgb, mod, jsRem, ratTrunc, jsRound, max_def, min_def]

/-- Output color for hue 0, full saturation, and the dark red pixel's
own lightness `10/51`: what "only saturation modified" would produce. -/
lemma hslToRgb_red_l1 : hslToRgb 0 1 (10 / 51) = (100, 0, 0) := by
  norm_num [hslToRgb, hue2rgb, mod, jsRem, ratTrunc, jsRound, max_def, min_def]

/-- Output color for hue 240, full saturation, lightness 1/2. -/
lemma hslToRgb_blue_half : hslToRgb 240 1 (1 / 2) = (0, 0, 255) := by
  norm_num [hslToRgb, hue2rgb, mod, jsRem, ratTrunc, jsRound, max_def, min_def]

/-- The two-pixel red-and-blue buffer builds its histogram by adding the
blue pixel to the red one's histogram. -/
lemma twoHist_eq :
    buildHist [⟨100, 0, 0, 255⟩, ⟨0, 0, 200, 255⟩] =
      accumPixel (buildHist [⟨100, 0, 0, 255⟩]) ⟨0, 0, 200, 255⟩ := rfl

/-- Histogram weights of the red-and-blue buffer: red in bucket 4 with
weight `139/170`, blue in bucket 124 with weight `159/170`. -/
lemma twoHist_w :
    ∀ j, (buildHist [⟨100, 0, 0, 255⟩, ⟨0, 0, 200, 255⟩]).w j =
      if j = 4 then 139 / 170 else if j = 124 then 159 / 170 else 0 := by
  intro j
  rw [twoHist_eq]
  simp only [accumPixel, rgbToHsl_blue]
  norm_num [abs_of_nonpos, max_def, min_def, show Int.toNat 124 = 124 from rfl, redHist_w]
  split_ifs <;> first | rfl | omega | norm_num

/-- Accumulated red sums of the red-and-blue buffer. -/
lemma twoHist_r :
    ∀ j, (buildHist [⟨100, 0, 0, 255⟩, ⟨0, 0, 200, 255⟩]).r j =
      if j = 4 then 100 * (139 / 170) else 0 := by
  intro j
  rw [twoHist_eq]
  simp only [accumPixel, rgbToHsl_blue]
  norm_num [abs_of_nonpos, max_def, min_def, show Int.toNat 124 = 124 from rfl, redHist_r]

/-- Accumulated green sums of the red-and-blue buffer. -/
lemma twoHist_g :
    ∀ j, (buildHist [⟨100, 0, 0, 255⟩, ⟨0, 0, 200, 255⟩]).g j = 0 := by
  intro j
  rw [twoHist_eq]
  simp only [accumPixel, rgbToHsl_blue]
  norm_num [abs_of_nonpos, max_def, min_def, show Int.toNat 124 = 124 from rfl, redHist_g]

/-- Accumulated blue sums of the red-and-blue buffer. -/
lemma twoHist_b :
    ∀ j, (buildHist [⟨100, 0, 0, 255⟩, ⟨0, 0, 200, 255⟩]).b j =
      if j = 124 then 200 * (159 / 170) else 0 := by
  intro j
  rw [twoHist_eq]
  simp only [accumPixel, rgbToHsl_blue]
  norm_num [abs_of_nonpos, max_def, min_def, show Int.toNat 124 = 124 from rfl, redHist_b]

/-- Bucket 124 of the red-and-blue buffer averages back to the blue
pixel. -/
lemma avgRGB_two_blue :
    avgRGB (buildHist [⟨100, 0, 0, 255⟩, ⟨0, 0, 200, 255⟩]) 124 = (0, 0, 200) := by
  simp only [avgRGB, twoHist_w, twoHist_r, twoHist_g, twoHist_b]
  norm_num [jsRound]

/-- Bucket 4 of the red-and-blue buffer averages back to the red
pixel. -/
lemma avgRGB_two_red :
    avgRGB (buildHist [⟨100, 0, 0, 255⟩, ⟨0, 0, 200, 255⟩]) 4 = (100, 0, 0) := by
  simp only [avgRGB, twoHist_w, twoHist_r, twoHist_g, twoHist_b]
  norm_num [jsRound]

/-- C7 counterexample: for the one-pixel dark red buffer the primary
bucket's weighted average is `(100, 0, 0)` with HSL `(0, 1, 10/51)`;
modifying only its saturation (boost to 1) and converting back would
give `(100, 0, 0)` again, but the code emits `(255, 0, 0)` because it
also replaces the lightness by the fixed value `0.5`. -/
theorem primary_lightness_cex :
    (extractColors [⟨100, 0, 0, 255⟩] 0).1 = (255, 0, 0) ∧
    avgRGB (buildHist [⟨100, 0, 0, 255⟩]) 4 = (100, 0, 0) ∧
    rgbToHsl 100 0 0 = (0, 1, 10 / 51) ∧
    hslToRgb 0 (max (45 / 100) (min 1 (1 * (115 / 100)))) (10 / 51) = (100, 0, 0) ∧
    ((255, 0, 0) : ℤ × ℤ × ℤ) ≠ (100, 0, 0) := by
  have hpos : 0 < (buildHist [⟨100, 0, 0, 255⟩]).w 4 := by
    rw [redHist_w]
    norm_num
  have hfp : findPrimary (buildHist [⟨100, 0, 0, 255⟩]).w =
      (((4 : ℕ) : ℤ), (buildHist [⟨100, 0, 0, 255⟩]).w 4) := by
    refine findPrimary_eq_of_max _ 4 (by norm_num [SIZE]) hpos ?_
    intro j _ hne
    rw [redHist_w, redHist_w]
    simp only [hne, if_false, if_pos rfl]
    norm_num
  refine ⟨?_, avgRGB_red, rgbToHsl_red, ?_, by decide⟩
  · rw [extractColors_eq [⟨100, 0, 0, 255⟩] 0 4 hfp hpos]
    dsimp only
    rw [avgRGB_red]
    dsimp only
    push_cast
    rw [rgbToHsl_red]
    dsimp only
    rw [show (max (45 / 100) (min 1 ((1 : ℚ) * (115 / 100)))) = 1 by
      norm_num [max_def, min_def]]
    exact hslToRgb_red_half
  · rw [show (max (45 / 100) (min 1 ((1 : ℚ) * (115 / 100)))) = 1 by
      norm_num [max_def, min_def]]
    exact hslToRgb_red_l1

/-- C7 (amended): for every buffer with at least one positive-weight
bucket, the primary is a maximum-weight bucket, its representative RGB
is the bucket's weight-weighted average, and the output color keeps the
representative's hue, boosts its saturation to
`max(0.45, min(1, s * 1.15))`, and sets the lightness to the fixed 0.5
(the lightness is replaced, not preserved) before the final RGB
conversion. -/
theorem primary_max_bucket_spec (data : List RGBA) (idx : ℕ)
    (h : ∃ j, j < SIZE ∧ 0 < (buildHist data).w j) :
    ∃ p : ℕ, p < SIZE ∧
      findPrimary (buildHist data).w = ((p : ℤ), (buildHist data).w p) ∧
      0 < (buildHist data).w p ∧
      (∀ j, j < SIZE → (buildHist data).w j ≤ (buildHist data).w p) ∧
      avgRGB (buildHist data) p =
        (jsRound ((buildHist data).r p / (buildHist data).w p),
         jsRound ((buildHist data).g p / (buildHist data).w p),
         jsRound ((buildHist data).b p / (buildHist data).w p)) ∧
      (extractColors data idx).1 =
        (let prgb := avgRGB (buildHist data) p
         let hsl1 := rgbToHsl prgb.1 prgb.2.1 prgb.2.2
         hslToRgb hsl1.1 (max (45 / 100) (min 1 (hsl1.2.1 * (115 / 100)))) (1 / 2)) := by
  obtain ⟨p, hp, heq, hpos, hmax⟩ := findPrimary_spec _ h
  refine ⟨p, hp, heq, hpos, hmax, ?_, ?_⟩
  · simp only [avgRGB, if_neg hpos.ne']
  · rw [extractColors_eq data idx p heq hpos]

/-- C7 witness: the amended statement at the one-pixel dark red
buffer. -/
theorem primary_max_bucket_spec_witness :
    ∃ p : ℕ, p < SIZE ∧
      findPrimary (buildHist [⟨100, 0, 0, 255⟩]).w =
        ((p : ℤ), (buildHist [⟨100, 0, 0, 255⟩]).w p) ∧
      0 < (buildHist [⟨100, 0, 0, 255⟩]).w p ∧
      (∀ j, j < SIZE →
        (buildHist [⟨100, 0, 0, 255⟩]).w j ≤ (buildHist [⟨100, 0, 0, 255⟩]).w p) ∧
      avgRGB (buildHist [⟨100, 0, 0, 255⟩]) p =
        (jsRound ((buildHist [⟨100, 0, 0, 255⟩]).r p / (buildHist [⟨100, 0, 0, 255⟩]).w p),
         jsRound ((buildHist [⟨100, 0, 0, 255⟩]).g p / (buildHist [⟨100, 0, 0, 255⟩]).w p),
         jsRound ((buildHist [⟨100, 0, 0, 255⟩]).b p / (buildHist [⟨100, 0, 0, 255⟩]).w p)) ∧
      (extractColors [⟨100, 0, 0, 255⟩] 0).1 =
        (let prgb := avgRGB (buildHist [⟨100, 0, 0, 255⟩]) p
         let hsl1 := rgbToHsl prgb.1 prgb.2.1 prgb.2.2
         hslToRgb hsl1.1 (max (45 / 100) (min 1 (hsl1.2.1 * (115 / 100)))) (1 / 2)) :=
  primary_max_bucket_spec [⟨100, 0, 0, 255⟩] 0
    ⟨4, by norm_num [SIZE], by rw [redHist_w]; norm_num⟩

/-- C6: for every buffer with a positive-weight bucket, the secondary
scan's result dominates every bucket whose hue is at least 25 degrees
from the primary's (shortest arc), any found candidate is such a bucket,
and the secondary output is the candidate's weight-weighted RGB
re-synthesized at lightness 0.72 with saturation boosted to
`max(0.45, min(1, s * 1.05))` exactly when a candidate exists with
weight at least 60 percent of the primary's; otherwise it is the
primary's boosted hue/saturation at the same lightness 0.72. -/
theorem secondary_selection_spec (data : List RGBA) (idx : ℕ)
    (h : ∃ j, j < SIZE ∧ 0 < (buildHist data).w j) :
    ∃ p : ℕ, p < SIZE ∧
      findPrimary (buildHist data).w = ((p : ℤ), (buildHist data).w p) ∧
      0 < (buildHist data).w p ∧
      (∀ j, j < SIZE → isCandidate (buildHist data).w (bucketHue p) j →
        (buildHist data).w j ≤ (findSecondary (buildHist data).w (bucketHue p)).2) ∧
      (0 ≤ (findSecondary (buildHist data).w (bucketHue p)).1 →
        ∃ s : ℕ, s < SIZE ∧
          findSecondary (buildHist data).w (bucketHue p) =
            ((s : ℤ), (buildHist data).w s) ∧
          isCandidate (buildHist data).w (bucketHue p) s) ∧
      (extractColors data idx).2 =
        (let hist := buildHist data
         let sec := findSecondary hist.w (bucketHue p)
         let prgb := avgRGB hist p
         let hsl1 := rgbToHsl prgb.1 prgb.2.1 prgb.2.2
         let s1 := max (45 / 100) (min 1 (hsl1.2.1 * (115 / 100)))
         if 0 ≤ sec.1 ∧ sec.2 ≥ hist.w p * (6 / 10) then
           let srgb := avgRGB hist sec.1.toNat
           let hsl2 := rgbToHsl srgb.1 srgb.2.1 srgb.2.2
           hslToRgb hsl2.1 (max (45 / 100) (min 1 (hsl2.2.1 * (105 / 100)))) (72 / 100)
         else hslToRgb hsl1.1 s1 (72 / 100)) := by
  obtain ⟨p, hp, heq, hpos, _⟩ := findPrimary_spec _ h
  refine ⟨p, hp, heq, hpos, ?_, ?_, ?_⟩
  · intro j hj hcj
    rcases findSecondary_cases (buildHist data).w (bucketHue p) with
      ⟨hseq, hall⟩ | ⟨s, _, hseq, _, _, hall⟩
    · rw [hseq]
      exact hall j hj hcj
    · rw [hseq]
      exact hall j hj hcj
  · intro hnn
    rcases findSecondary_cases (buildHist data).w (bucketHue p) with
      ⟨hseq, _⟩ | ⟨s, hs, hseq, _, hcand, _⟩
    · rw [hseq] at hnn
      norm_num at hnn
    · exact ⟨s, hs, hseq, hcand⟩
  · rw [extractColors_eq data idx p heq hpos]

/-- C6 witness: the red-and-blue two-pixel buffer, where the blue bucket
is primary and the red bucket is a 120-degrees-away candidate above the
60 percent threshold. -/
theorem secondary_selection_spec_witness :
    ∃ p : ℕ, p < SIZE ∧
      findPrimary (buildHist [⟨100, 0, 0, 255⟩, ⟨0, 0, 200, 255⟩]).w =
        ((p : ℤ), (buildHist [⟨100, 0, 0, 255⟩, ⟨0, 0, 200, 255⟩]).w p) ∧
      0 < (buildHist [⟨100, 0, 0, 255⟩, ⟨0, 0, 200, 255⟩]).w p ∧
      (∀ j, j < SIZE →
        isCandidate (buildHist [⟨100, 0, 0, 255⟩, ⟨0, 0, 200, 255⟩]).w (bucketHue p) j →
        (buildHist [⟨100, 0, 0, 255⟩, ⟨0, 0, 200, 255⟩]).w j ≤
          (findSecondary (buildHist [⟨100, 0, 0, 255⟩, ⟨0, 0, 200, 255⟩]).w (bucketHue p)).2) ∧
      (0 ≤ (findSecondary (buildHist [⟨100, 0, 0, 255⟩, ⟨0, 0, 200, 255⟩]).w (bucketHue p)).1 →
        ∃ s : ℕ, s < SIZE ∧
          findSecondary (buildHist [⟨100, 0, 0, 255⟩, ⟨0, 0, 200, 255⟩]).w (bucketHue p) =
            ((s : ℤ), (buildHist [⟨100, 0, 0, 255⟩, ⟨0, 0, 200, 255⟩]).w s) ∧
          isCandidate (buildHist [⟨100, 0, 0, 255⟩, ⟨0, 0, 200, 255⟩]).w (bucketHue p) s) ∧
      (extractColors [⟨100, 0, 0, 255⟩, ⟨0, 0, 200, 255⟩] 0).2 =
        (let hist := buildHist [⟨100, 0, 0, 255⟩, ⟨0, 0, 200, 255⟩]
         let sec := findSecondary hist.w (bucketHue p)
         let prgb := avgRGB hist p
         let hsl1 := rgbToHsl prgb.1 prgb.2.1 prgb.2.2
         let s1 := max (45 / 100) (min 1 (hsl1.2.1 * (115 / 100)))
         if 0 ≤ sec.1 ∧ sec.2 ≥ hist.w p * (6 / 10) then
           let srgb := avgRGB hist sec.1.toNat
           let hsl2 := rgbToHsl srgb.1 srgb.2.1 srgb.2.2
           hslToRgb hsl2.1 (max (45 / 100) (min 1 (hsl2.2.1 * (105 / 100)))) (72 / 100)
         else hslToRgb hsl1.1 s1 (72 / 100)) :=
  secondary_selection_spec [⟨100, 0, 0, 255⟩, ⟨0, 0, 200, 255⟩] 0
    ⟨124, by norm_num [SIZE], by rw [twoHist_w]; norm_num⟩

/-- C8: whenever no histogram bucket has positive weight the extractor
returns the deterministic index-derived synthetic pair, whose
construction is the hue `(index * 37) mod 360` at saturation 0.65 and
lightness levels 0.52 and 0.72, and the ten configured items receive ten
distinct fallback hues. -/
theorem extract_fallback_spec :
    (∀ (data : List RGBA) (idx : ℕ),
        (∀ j, j < SIZE → (buildHist data).w j ≤ 0) →
        extractColors data idx = fallbackFromIndex idx) ∧
    (∀ idx : ℕ, fallbackFromIndex idx =
        (hslToRgb (((idx * 37) % 360 : ℕ) : ℚ) (65 / 100) (52 / 100),
         hslToRgb (((idx * 37) % 360 : ℕ) : ℚ) (65 / 100) (72 / 100))) ∧
    (∀ i < 10, ∀ j < 10, i ≠ j → (i * 37) % 360 ≠ (j * 37) % 360) := by
  refine ⟨?_, fun idx => rfl, by decide⟩
  intro data idx hz
  rcases primaryFold_spec (buildHist data).w (List.range SIZE) ((-1 : ℤ), 0) with
    ⟨heq, _⟩ | ⟨i, hi, _, hgt, _⟩
  · have hfp : findPrimary (buildHist data).w = ((-1 : ℤ), 0) := heq
    simp only [extractColors, hfp]
    norm_num
  · exact absurd hgt (not_lt.mpr (hz i (List.mem_range.mp hi)))

/-- C8 witness: the empty buffer (every bucket weight zero) at index 0
maps to the index-0 fallback pair. -/
theorem extract_fallback_spec_witness :
    extractColors [] 0 = fallbackFromIndex 0 :=
  extract_fallback_spec.1 [] 0 (fun _ _ => le_refl 0)

/-! ### Momentum decay (C3) -/

/-- One-step unfolding of the idle-frame velocity sequence. -/
lemma velAfter_succ (v0 : ℝ) (dts : ℕ → ℝ) (n : ℕ) :
    velAfter v0 dts (n + 1) = tickVel (dts n) (velAfter v0 dts n) := rfl

/-- `tickVel` written without the intermediate `let`. -/
lemma tickVel_eq (dt v : ℝ) :
    tickVel dt v =
      if |v * (0.9 : ℝ) ^ (dt * 60)| < 0.02 then 0
      else v * (0.9 : ℝ) ^ (dt * 60) := rfl

/-- C3 (amended): with no impulses, (i) as long as the post-decay
magnitude stays at or above the epsilon 0.02 the velocity after frames
summing to `t` seconds is exactly `v0 * FRICTION ^ (60 t)`, and (ii) for
any tick sequence whose positive deltas are bounded below by some
`δ > 0` (in particular any run of real frames) the velocity eventually
snaps to exactly zero.  Without such a lower bound the snap need not
ever fire. -/
theorem velocity_decay_spec :
    (∀ (v0 : ℝ) (dts : ℕ → ℝ) (n : ℕ),
        (∀ m, m < n →
          (0.02 : ℝ) ≤ |v0| * (0.9 : ℝ) ^ ((60 : ℝ) * ∑ k ∈ Finset.range (m + 1), dts k)) →
        velAfter v0 dts n = v0 * (0.9 : ℝ) ^ ((60 : ℝ) * ∑ k ∈ Finset.range n, dts k)) ∧
    (∀ (v0 δ : ℝ) (dts : ℕ → ℝ), 0 < δ → (∀ k, δ ≤ dts k) →
        ∃ n, velAfter v0 dts n = 0) := by
  have hb : (0 : ℝ) < 0.9 := by norm_num
  constructor
  · intro v0 dts n
    induction n with
    | zero =>
      intro _
      simp [velAfter, Real.rpow_zero]
    | succ n ih =>
      intro h
      have hn := ih fun m hm => h m (Nat.lt_succ_of_lt hm)
      have hexp : v0 * (0.9 : ℝ) ^ ((60 : ℝ) * ∑ k ∈ Finset.range n, dts k) *
          (0.9 : ℝ) ^ (dts n * 60) =
          v0 * (0.9 : ℝ) ^ ((60 : ℝ) * ∑ k ∈ Finset.range (n + 1), dts k) := by
        rw [mul_assoc, ← Real.rpow_add hb, Finset.sum_range_succ]
        congr 1
        ring_nf
      have habs : |v0 * (0.9 : ℝ) ^ ((60 : ℝ) * ∑ k ∈ Finset.range (n + 1), dts k)| =
          |v0| * (0.9 : ℝ) ^ ((60 : ℝ) * ∑ k ∈ Finset.range (n + 1), dts k) := by
        rw [abs_mul, abs_of_pos (Real.rpow_pos_of_pos hb _)]
      rw [velAfter_succ, hn, tickVel_eq, hexp,
        if_neg (by rw [habs]; exact not_lt.mpr (h n (Nat.lt_succ_self n)))]
  · intro v0 δ dts hδ hk
    by_contra hcon
    push_neg at hcon
    have hv00 : v0 ≠ 0 := by
      have := hcon 0
      simpa [velAfter] using this
    have hinv : ∀ n, velAfter v0 dts n =
        v0 * (0.9 : ℝ) ^ ((60 : ℝ) * ∑ k ∈ Finset.range n, dts k) ∧
        (n ≠ 0 → (0.02 : ℝ) ≤ |velAfter v0 dts n|) := by
      intro n
      induction n with
      | zero => simp [velAfter, Real.rpow_zero]
      | succ n ih =>
        by_cases hb2 : |velAfter v0 dts n * (0.9 : ℝ) ^ (dts n * 60)| < 0.02
        · exact absurd (by rw [velAfter_succ, tickVel_eq, if_pos hb2]) (hcon (n + 1))
        · have hstep : velAfter v0 dts (n + 1) =
              velAfter v0 dts n * (0.9 : ℝ) ^ (dts n * 60) := by
            rw [velAfter_succ, tickVel_eq, if_neg hb2]
          constructor
          · rw [hstep, ih.1, mul_assoc, ← Real.rpow_add hb, Finset.sum_range_succ]
            congr 1
            ring_nf
          · intro _
            rw [hstep]
            exact not_lt.mp hb2
    have hv0 : 0 < |v0| := abs_pos.mpr hv00
    have hc1 : (0.9 : ℝ) ^ ((60 : ℝ) * δ) < 1 :=
      Real.rpow_lt_one (by norm_num) (by norm_num) (by positivity)
    have hc0 : (0 : ℝ) < (0.9 : ℝ) ^ ((60 : ℝ) * δ) := Real.rpow_pos_of_pos hb _
    obtain ⟨n, hn⟩ :=
      exists_pow_lt_of_lt_one (div_pos (by norm_num : (0 : ℝ) < 0.02) hv0) hc1
    have hS : ((n + 1 : ℕ) : ℝ) * δ ≤ ∑ k ∈ Finset.range (n + 1), dts k := by
      have := Finset.card_nsmul_le_sum (Finset.range (n + 1)) dts δ fun i _ => hk i
      simpa [nsmul_eq_mul, Finset.card_range] using this
    have hrle : (0.9 : ℝ) ^ ((60 : ℝ) * ∑ k ∈ Finset.range (n + 1), dts k) ≤
        ((0.9 : ℝ) ^ ((60 : ℝ) * δ)) ^ (n + 1) := by
      have h1 : (0.9 : ℝ) ^ ((60 : ℝ) * ∑ k ∈ Finset.range (n + 1), dts k) ≤
          (0.9 : ℝ) ^ ((60 : ℝ) * (((n + 1 : ℕ) : ℝ) * δ)) := by
        refine Real.rpow_le_rpow_of_exponent_ge hb (by norm_num) ?_
        nlinarith [hS]
      have h2 : (0.9 : ℝ) ^ ((60 : ℝ) * (((n + 1 : ℕ) : ℝ) * δ)) =
          ((0.9 : ℝ) ^ ((60 : ℝ) * δ)) ^ (n + 1) := by
        rw [show (60 : ℝ) * (((n + 1 : ℕ) : ℝ) * δ) = (60 : ℝ) * δ * ((n + 1 : ℕ) : ℝ) by
          ring]
        rw [Real.rpow_mul (by norm_num), Real.rpow_natCast]
      exact h1.trans_eq h2
    have hCn : ((0.9 : ℝ) ^ ((60 : ℝ) * δ)) ^ (n + 1) ≤ ((0.9 : ℝ) ^ ((60 : ℝ) * δ)) ^ n :=
      pow_le_pow_of_le_one hc0.le hc1.le (Nat.le_succ n)
    have hbig := (hinv (n + 1)).2 (Nat.succ_ne_zero n)
    rw [(hinv (n + 1)).1, abs_mul,
      abs_of_pos (Real.rpow_pos_of_pos hb _)] at hbig
    have hchain : |v0| * (0.9 : ℝ) ^ ((60 : ℝ) * ∑ k ∈ Finset.range (n + 1), dts k) ≤
        |v0| * ((0.9 : ℝ) ^ ((60 : ℝ) * δ)) ^ n :=
      mul_le_mul_of_nonneg_left (hrle.trans hCn) (abs_nonneg v0)
    have hlt : ((0.9 : ℝ) ^ ((60 : ℝ) * δ)) ^ n * |v0| < 0.02 := (lt_div_iff₀ hv0).mp hn
    nlinarith [hbig, hchain, hlt]

/-- C3 witness: one frame of `1/60` seconds decays `v0 = 1` to exactly
`0.9`, and the constant-delta sequence `1/60` eventually reaches exactly
zero. -/
theorem velocity_decay_spec_witness :
    velAfter 1 (fun _ => 1 / 60) 1 = 0.9 ∧
    (∃ n, velAfter 1 (fun _ => (1 / 60 : ℝ)) n = 0) := by
  constructor
  · have hyp : ∀ m, m < 1 →
        (0.02 : ℝ) ≤ |(1 : ℝ)| *
          (0.9 : ℝ) ^ ((60 : ℝ) * ∑ k ∈ Finset.range (m + 1), (fun _ => (1 / 60 : ℝ)) k) := by
      intro m hm
      have hm0 : m = 0 := by omega
      subst hm0
      rw [Finset.sum_range_one]
      norm_num
    have h := velocity_decay_spec.1 1 (fun _ => (1 / 60 : ℝ)) 1 hyp
    rw [h, Finset.sum_range_one]
    norm_num
  · exact velocity_decay_spec.2 1 (1 / 60) (fun _ => (1 / 60 : ℝ)) (by norm_num)
      fun _ => le_refl _

/-- The Zeno delta sequence: the `k`-th idle frame lasts
`1 / (60 * 2^(k+1))` seconds, so all deltas are positive but their total
stays below `1/60` seconds. -/
noncomputable def zenoDts (k : ℕ) : ℝ := 1 / (60 * 2 ^ (k + 1))

/-- C3 counterexample: for `v0 = 1` and the positive Zeno deltas the
total decay never reaches the epsilon, so the velocity never becomes
exactly zero, refuting the claim for arbitrary positive tick
sequences. -/
theorem velocity_zeno_cex :
    (∀ k, 0 < zenoDts k) ∧ ∀ n, velAfter 1 zenoDts n ≠ 0 := by
  have hb : (0 : ℝ) < 0.9 := by norm_num
  have hz : ∀ k, zenoDts k = 1 / (60 * 2 ^ (k + 1)) := fun _ => rfl
  constructor
  · intro k
    rw [hz]
    positivity
  · have hsum : ∀ n : ℕ,
        ∑ k ∈ Finset.range n, zenoDts k = 1 / 60 * (1 - (1 / 2 : ℝ) ^ n) := by
      intro n
      induction n with
      | zero => simp
      | succ n ih =>
        rw [Finset.sum_range_succ, ih, hz, pow_succ, pow_succ]
        have h2 : (2 : ℝ) ^ n ≠ 0 := by positivity
        field_simp
        ring_nf
    have hmain : ∀ n, velAfter 1 zenoDts n =
        (0.9 : ℝ) ^ ((60 : ℝ) * ∑ k ∈ Finset.range n, zenoDts k) := by
      intro n
      induction n with
      | zero => simp [velAfter, Real.rpow_zero]
      | succ n ih =>
        have hboundExp : (60 : ℝ) * ∑ k ∈ Finset.range (n + 1), zenoDts k ≤ 1 := by
          rw [hsum]
          nlinarith [pow_nonneg (by norm_num : (0 : ℝ) ≤ 1 / 2) (n + 1)]
        have hge : (0.9 : ℝ) ≤
            (0.9 : ℝ) ^ ((60 : ℝ) * ∑ k ∈ Finset.range (n + 1), zenoDts k) := by
          have h1 := Real.rpow_le_rpow_of_exponent_ge hb
            (by norm_num : (0.9 : ℝ) ≤ 1) hboundExp
          rwa [Real.rpow_one] at h1
        have hexp : (0.9 : ℝ) ^ ((60 : ℝ) * ∑ k ∈ Finset.range n, zenoDts k) *
            (0.9 : ℝ) ^ (zenoDts n * 60) =
            (0.9 : ℝ) ^ ((60 : ℝ) * ∑ k ∈ Finset.range (n + 1), zenoDts k) := by
          rw [← Real.rpow_add hb, Finset.sum_range_succ]
          congr 1
          ring_nf
        rw [velAfter_succ, tickVel_eq, ih, hexp, if_neg]
        rw [abs_of_pos (Real.rpow_pos_of_pos hb _)]
        exact not_lt.mpr (le_trans (by norm_num) hge)
    intro n
    rw [hmain n]
    exact ne_of_gt (Real.rpow_pos_of_pos hb _)

end GradientSlider
